import Mathlib

/-!
Verification development for the Numerical-Integration repository.

The numeric engine is embedded shallowly over exact rationals:
* JS numbers become `ℚ`; the only source of non-finite values reachable from
  the claims (division by zero producing NaN/Infinity) is modelled by `jsDiv`
  returning `none`.
* `src/src/IntegrationMethods.jsx` gives the quadrature rules and the registry.
* The custom-function compiler (`processCustomFunction` in the Utils module,
  `src/unnamed/part_000`) is embedded as a character-list rewriting pipeline;
  the host facilities it calls (`new Function`, probe evaluation, `Math.sqrt`,
  `Math.random`) are abstracted as explicit oracle parameters.
* The per-rule result records built by `performCalculations`
  (`src/unnamed/part_001`) are embedded with JS truthiness made explicit.
-/

namespace NumInt

/-- JS division on exact rationals.  A zero denominator yields NaN or
±Infinity in JS; both are non-finite, marked here by `none`. -/
def jsDiv (x y : ℚ) : Option ℚ :=
  if y = 0 then none else some (x / y)

/-- `TrapezoidalRule.integrate` (IntegrationMethods.jsx lines 32-41):
`h = (b-a)/n`, `sum = (f a + f b)/2 + Σ_{i=1}^{n-1} f (a + i h)`,
result `sum * h`. -/
def trapezoidalIntegrate (f : ℚ → ℚ) (a b : ℚ) (n : ℕ) : Option ℚ :=
  (jsDiv (b - a) n).map fun h =>
    ((f a + f b) / 2 + ∑ i ∈ Finset.Ico 1 n, f (a + i * h)) * h

/-- `SimpsonsRule1By3.simpsonRule` (lines 91-99), the pure composite
Simpson 1/3 formula: `h = (b-a)/n`,
`sum = f a + f b + Σ_{i=1}^{n-1} (2 if i even else 4) * f (a + i h)`,
result `(sum * h) / 3`. -/
def simpsonRule (f : ℚ → ℚ) (a b : ℚ) (n : ℕ) : Option ℚ :=
  (jsDiv (b - a) n).bind fun h =>
    jsDiv ((f a + f b +
      ∑ i ∈ Finset.Ico 1 n, (if i % 2 = 0 then (2 : ℚ) else 4) * f (a + i * h)) * h) 3

/-- `SimpsonsRule1By3.integrate` (lines 74-88): even `n` uses the classical
rule; odd `n` uses `simpsonRule` on the first `n-1` intervals up to
`splitPoint = b - h` plus one trapezoidal panel `(h/2)(f splitPoint + f b)`. -/
def simpson13Integrate (f : ℚ → ℚ) (a b : ℚ) (n : ℕ) : Option ℚ :=
  if n % 2 = 0 then
    simpsonRule f a b n
  else
    (jsDiv (b - a) n).bind fun h =>
      (simpsonRule f a (b - h) (n - 1)).map fun simpsonPart =>
        simpsonPart + h / 2 * (f (b - h) + f b)

/-- `MidpointRule.integrate` (lines 162-172):
`sum = Σ_{i=0}^{n-1} f (a + (i + 0.5) h)`, result `sum * h`. -/
def midpointIntegrate (f : ℚ → ℚ) (a b : ℚ) (n : ℕ) : Option ℚ :=
  (jsDiv (b - a) n).map fun h =>
    (∑ i ∈ Finset.range n, f (a + ((i : ℚ) + 1 / 2) * h)) * h

/-- `SimpsonsRule3By8.integrate` (lines 241-274).  Throws for `n < 3`
(message abridged: the apostrophe of the source text is omitted); otherwise
applies the 3/8 rule to `mainN = n - n % 3` intervals and a trapezoidal rule
to the remaining ones.  In the non-error branch `n ≥ 3`, so the divisions by
`n` are never by zero and plain `ℚ` division is exact. -/
def simpson38Integrate (f : ℚ → ℚ) (a b : ℚ) (n : ℕ) : Except String ℚ :=
  if n < 3 then
    Except.error "Simpsons 3/8 rule requires at least 3 intervals."
  else
    let remainder := n % 3
    let h := (b - a) / (n : ℚ)
    let mainN := n - remainder
    let mainPart : ℚ :=
      if 3 ≤ mainN then
        3 * h / 8 * (f a + f (a + mainN * h) +
          ∑ i ∈ Finset.Ico 1 mainN, (if i % 3 = 0 then (2 : ℚ) else 3) * f (a + i * h))
      else 0
    let remPart : ℚ :=
      if 0 < remainder then
        ((f (a + mainN * h) + f b) / 2 +
          ∑ i ∈ Finset.Ico 1 remainder, f (a + mainN * h + i * h)) * h
      else 0
    Except.ok (mainPart + remPart)

/-- Instance state of `MonteCarloIntegration`: `lastSamples` is `undefined`
until `integrate` first runs, then holds the drawn `(x, y)` pairs. -/
structure MonteCarloState where
  lastSamples : Option (List (ℚ × ℚ))
deriving DecidableEq

/-- A freshly constructed `MonteCarloIntegration` instance: `integrate` has
never been called, so `lastSamples` is still `undefined`. -/
def monteCarloNew : MonteCarloState := ⟨none⟩

/-- `MonteCarloIntegration.integrate` (lines 205-218).  `Math.random()` is a
host facility, abstracted as the stream `rand` (values in `[0,1)`); the call
draws `x_i = a + rand i * (b - a)`, stores the samples, and returns
`(sum / n) * (b - a)`. -/
def monteCarloIntegrate (f : ℚ → ℚ) (a b : ℚ) (n : ℕ) (rand : ℕ → ℚ) :
    MonteCarloState × Option ℚ :=
  let samples := (List.range n).map fun i =>
    (a + rand i * (b - a), f (a + rand i * (b - a)))
  (⟨some samples⟩, (jsDiv ((samples.map Prod.snd).sum) n).map fun m => m * (b - a))

/-- Result of `MonteCarloIntegration.getErrorEstimate`: JS `null`, a finite
number, or a non-finite number (NaN/Infinity). -/
inductive EstimateResult where
  | null : EstimateResult
  | val : ℚ → EstimateResult
  | nonFinite : EstimateResult
deriving DecidableEq

/-- `MonteCarloIntegration.getErrorEstimate` (lines 224-232): returns `null`
when `lastSamples` is unset; otherwise `1.96 * sqrt (variance / n) * (b - a)`
with the `(n-1)`-denominator sample variance.  `Math.sqrt` is a host facility,
abstracted as the oracle `sqrt`.  The parameter `f` is received but unused,
as in the source. -/
def monteCarloGetErrorEstimate (st : MonteCarloState) (f : ℚ → ℚ) (a b : ℚ)
    (n : ℕ) (sqrt : ℚ → ℚ) : EstimateResult :=
  match st.lastSamples with
  | none => .null
  | some samples =>
    match jsDiv ((samples.map Prod.snd).sum) n with
    | none => .nonFinite
    | some mean =>
      match jsDiv ((samples.map fun s => (s.2 - mean) ^ 2).sum) ((n : ℚ) - 1) with
      | none => .nonFinite
      | some variance =>
        match jsDiv variance n with
        | none => .nonFinite
        | some vOverN => .val (196 / 100 * (sqrt vOverN * (b - a)))

/-- The five rule classes defined in IntegrationMethods.jsx. -/
inductive MethodName where
  | trapezoidal : MethodName
  | simpson13 : MethodName
  | simpson38 : MethodName
  | midpoint : MethodName
  | monteCarlo : MethodName
deriving DecidableEq

/-- The registry `integrationMethods` (lines 277-283).  The source line
constructing `MidpointRule` is commented out, so the registry holds four
entries. -/
def integrationMethods : List MethodName :=
  [.trapezoidal, .simpson13, .simpson38, .monteCarlo]

/-- Outcome of invoking a rule: a finite value, a non-finite value, or a
thrown error. -/
inductive IntegrateResult where
  | ok : ℚ → IntegrateResult
  | nonFinite : IntegrateResult
  | err : String → IntegrateResult
deriving DecidableEq

/-- Lift an `Option ℚ` (finite-or-not) into an `IntegrateResult`. -/
def ofOpt : Option ℚ → IntegrateResult
  | none => .nonFinite
  | some v => .ok v

/-- Dispatch `integrate` through a rule identifier, as
`performCalculations` does via the registry.  `rand` feeds Monte Carlo and
is ignored by the deterministic rules. -/
def methodIntegrate (m : MethodName) (f : ℚ → ℚ) (a b : ℚ) (n : ℕ)
    (rand : ℕ → ℚ) : IntegrateResult :=
  match m with
  | .trapezoidal => ofOpt (trapezoidalIntegrate f a b n)
  | .simpson13 => ofOpt (simpson13Integrate f a b n)
  | .simpson38 =>
    match simpson38Integrate f a b n with
    | .ok v => .ok v
    | .error msg => .err msg
  | .midpoint => ofOpt (midpointIntegrate f a b n)
  | .monteCarlo => ofOpt ((monteCarloIntegrate f a b n rand).2)

/-- Whether a rule invocation returned a finite value. -/
def IntegrateResult.isOk : IntegrateResult → Bool
  | .ok _ => true
  | _ => false

/-- The predefined entry `x^2` of Constants.jsx: `(x) => x * x`. -/
def funcX2 : ℚ → ℚ := fun x => x * x

/-- The predefined entry `x^3` of Constants.jsx: `(x) => x * x * x`. -/
def funcX3 : ℚ → ℚ := fun x => x * x * x

/-- The `exact` evaluator of the predefined entry `x^3`:
`(a, b) => (b^4 - a^4) / 4`. -/
def exactX3 (a b : ℚ) : ℚ := (b ^ 4 - a ^ 4) / 4

/-- One result record of `performCalculations` (part_001 lines 101-128),
success path.  The source guards the two error fields with
`exactValue ? ... : null`: JS truthiness sends both `null` and `0` to the
`null` branch, which is made explicit here. -/
structure RuleResult where
  method : String
  value : ℚ
  error : Option ℚ
  errorEstimate : Option ℚ
  relativeError : Option ℚ
deriving DecidableEq

/-- Builds the record `performCalculations` returns for one rule whose
`integrate` call succeeded with `value`. -/
def mkRuleResult (name : String) (value : ℚ) (exactValue : Option ℚ)
    (estimate : Option ℚ) : RuleResult :=
  { method := name
    value := value
    error :=
      match exactValue with
      | none => none
      | some e => if e = 0 then none else some |value - e|
    errorEstimate := estimate
    relativeError :=
      match exactValue with
      | none => none
      | some e => if e = 0 then none else some (|(value - e) / e| * 100) }

/-!
## The expression compiler (`processCustomFunction`, src/unnamed/part_000)

The source builds the normalized text by a chain of JS `String.replace`
calls with global regexes.  Each call is one full left-to-right scan of its
input; replacement text is emitted, not rescanned, and `\b` word boundaries
are judged against the characters of the string being scanned.  The
embeddings below follow exactly that semantics on `List Char`; the fuel
argument equals the input length, which each step strictly consumes, so it
never runs out.
-/

/-- JS regex word character `\w` = `[A-Za-z0-9_]`. -/
def wordChar (c : Char) : Bool := c.isAlphanum || c == '_'

/-- Does the list start with the literal pattern? -/
def startsWithPat : List Char → List Char → Bool
  | _, [] => true
  | [], _ :: _ => false
  | c :: cs, p :: ps => c == p && startsWithPat cs ps

/-- `s.replace(/pat/g, rep)` for a literal, non-empty pattern. -/
def replaceAllAux (pat rep : List Char) : ℕ → List Char → List Char
  | 0, s => s
  | _, [] => []
  | fuel + 1, c :: cs =>
    if !pat.isEmpty && startsWithPat (c :: cs) pat then
      rep ++ replaceAllAux pat rep fuel (List.drop (pat.length - 1) cs)
    else
      c :: replaceAllAux pat rep fuel cs

/-- `s.replace(/pat/g, rep)`, `pat` literal. -/
def replaceAll (pat rep s : List Char) : List Char :=
  replaceAllAux pat rep s.length s

/-- A `\b` holds before the scan position given the previous character. -/
def boundaryBefore : Option Char → Bool
  | none => true
  | some c => !wordChar c

/-- A `\b` holds after the matched text given the rest of the string. -/
def boundaryAfter : List Char → Bool
  | [] => true
  | d :: _ => !wordChar d

/-- `s.replace(/\bpat\b/g, rep)`: literal pattern with word boundaries on
both sides.  `prev` is the character just before the scan position in the
string being scanned (after a match, the last matched character). -/
def replaceWordAux (pat rep : List Char) : ℕ → Option Char → List Char → List Char
  | 0, _, s => s
  | _, _, [] => []
  | fuel + 1, prev, c :: cs =>
    if !pat.isEmpty && startsWithPat (c :: cs) pat && boundaryBefore prev &&
        boundaryAfter (List.drop pat.length (c :: cs)) then
      rep ++ replaceWordAux pat rep fuel (some (pat.getLastD c)) (List.drop (pat.length - 1) cs)
    else
      c :: replaceWordAux pat rep fuel (some c) cs

/-- `s.replace(/\bpat\b/g, rep)`, `pat` literal. -/
def replaceWord (pat rep s : List Char) : List Char :=
  replaceWordAux pat rep s.length none s

/-- The implicit-multiplication rewrites, e.g. `s.replace(/(\d)([x])/g,
"$1*$2")`: wherever a character satisfying `fst` is directly followed by one
satisfying `snd`, a `*` is inserted between them; scanning resumes after the
matched pair. -/
def insertStar (fst snd : Char → Bool) : List Char → List Char
  | [] => []
  | [c] => [c]
  | c :: d :: cs =>
    if fst c && snd d then c :: '*' :: d :: insertStar fst snd cs
    else c :: insertStar fst snd (d :: cs)

/-- The normalization pipeline of `processCustomFunction` (part_000 lines
122-171), producing the `processed` text.  Steps in source order:
lower-case; strip whitespace; whole-word constants `e`, `pi`; `e^` →
`Math.exp` (the source pattern is `e\s*\^`, but all whitespace was already
removed, so `\s*` can only match the empty string); `^` → `**`; the
`ln`/`log` placeholder dance; trig, inverse-trig, hyperbolic, `sqrt`, `abs`
whole words; the five implicit-multiplication insertions. -/
def normalizeChars (raw : List Char) : List Char :=
  let s := (raw.map Char.toLower).filter fun c => !c.isWhitespace
  let s := replaceWord ("e".toList) ("Math.E".toList) s
  let s := replaceWord ("pi".toList) ("Math.PI".toList) s
  let s := replaceAll ("e^".toList) ("Math.exp".toList) s
  let s := replaceAll ("^".toList) ("**".toList) s
  let s := replaceWord ("ln".toList) ("NATURAL_LOG".toList) s
  let s := replaceWord ("log".toList) ("Math.log10".toList) s
  let s := replaceAll ("NATURAL_LOG".toList) ("Math.log".toList) s
  let s := replaceWord ("sin".toList) ("Math.sin".toList) s
  let s := replaceWord ("cos".toList) ("Math.cos".toList) s
  let s := replaceWord ("tan".toList) ("Math.tan".toList) s
  let s := replaceWord ("csc".toList) ("(1/Math.sin)".toList) s
  let s := replaceWord ("sec".toList) ("(1/Math.cos)".toList) s
  let s := replaceWord ("cot".toList) ("(1/Math.tan)".toList) s
  let s := replaceWord ("asin".toList) ("Math.asin".toList) s
  let s := replaceWord ("arcsin".toList) ("Math.asin".toList) s
  let s := replaceWord ("acos".toList) ("Math.acos".toList) s
  let s := replaceWord ("arccos".toList) ("Math.acos".toList) s
  let s := replaceWord ("atan".toList) ("Math.atan".toList) s
  let s := replaceWord ("arctan".toList) ("Math.atan".toList) s
  let s := replaceWord ("sinh".toList) ("Math.sinh".toList) s
  let s := replaceWord ("cosh".toList) ("Math.cosh".toList) s
  let s := replaceWord ("tanh".toList) ("Math.tanh".toList) s
  let s := replaceWord ("sqrt".toList) ("Math.sqrt".toList) s
  let s := replaceWord ("abs".toList) ("Math.abs".toList) s
  let s := insertStar Char.isDigit (fun c => c == 'x') s
  let s := insertStar (fun c => c == 'x') Char.isDigit s
  let s := insertStar (fun c => c == ')') (fun c => c == 'x') s
  let s := insertStar (fun c => c == ')') (fun c => c == '(') s
  let s := insertStar (fun c => c == 'x') (fun c => c == '(') s
  s

/-- Substring test (used to state claims about the normalized text). -/
def containsSub (s pat : List Char) : Bool :=
  match s with
  | [] => pat.isEmpty
  | _ :: cs => startsWithPat s pat || containsSub cs pat

/-- JS `String.prototype.trim`: drop leading and trailing whitespace. -/
def jsTrim (s : List Char) : List Char :=
  ((s.dropWhile Char.isWhitespace).reverse.dropWhile Char.isWhitespace).reverse

/-- Outcome of the host `new Function('x', ...)` constructor on the
normalized text: success, or a thrown syntax error carrying a message. -/
inductive CompileOutcome where
  | success : CompileOutcome
  | failure : String → CompileOutcome

/-- Outcome of invoking the compiled callable at one probe point. -/
inductive ProbeResult where
  | throws : ProbeResult
  | nonNumber : ProbeResult
  | number : Bool → Bool → ProbeResult
deriving DecidableEq

/-- The probe test of part_000 lines 188-191:
`typeof testVal === 'number' && isFinite(testVal) && !isNaN(testVal)`.
`ProbeResult.number finite nan` records the two flags. -/
def probeValid : ProbeResult → Bool
  | .number finite nan => finite && !nan
  | _ => false

/-- The host JS engine, abstracted: compiling a normalized text, and
evaluating the resulting callable at a rational probe point. -/
structure HostEval where
  compile : String → CompileOutcome
  eval : String → ℚ → ProbeResult

/-- The fixed probe set `[0.1, 1, 2, 3, 5]` (part_000 line 183). -/
def testPoints : List ℚ := [1 / 10, 1, 2, 3, 5]

/-- The message of the error thrown when no probe succeeds (line 198). -/
def domainErrorMessage : String :=
  "Function does not produce valid numeric results. Check your syntax and domain."

/-- The record `{ processed, error }` returned by `processCustomFunction`. -/
structure ProcResult where
  processed : Option String
  error : String
deriving DecidableEq

/-- JS `a || b` on strings: the empty string is falsy. -/
def jsOrElse (a b : String) : String :=
  if a = "" then b else a

/-- `processCustomFunction` (part_000 lines 116-205).  Empty-after-trim
input returns `{ processed: null, error: '' }` without compiling; otherwise
the text is normalized and handed to the host.  A host syntax error is
caught by the outer `try` and surfaced as `e.message || 'Invalid function
syntax'`.  On successful compilation the callable is probed at `testPoints`;
if no probe yields a finite non-NaN number, the thrown domain error is
caught by the same outer `try` (its message is non-empty, so `||` keeps
it). -/
def processCustomFunction (host : HostEval) (raw : String) : ProcResult :=
  if (jsTrim raw.toList).isEmpty then
    { processed := none, error := "" }
  else
    let processed := String.mk (normalizeChars raw.toList)
    match host.compile processed with
    | .failure msg => { processed := none, error := jsOrElse msg "Invalid function syntax" }
    | .success =>
      if testPoints.any fun x => probeValid (host.eval processed x) then
        { processed := some processed, error := "" }
      else
        { processed := none, error := domainErrorMessage }

/-- A host on which every compilation succeeds and every probe returns a
finite non-NaN number (used to instantiate theorems about the compiler). -/
def hostAllValid : HostEval :=
  { compile := fun _ => .success
    eval := fun _ _ => .number true false }

/-!
## Claims
-/

/-- Claim C1, counterexample.  The claim says the registry exposes a usable
rule for every identifier in {Trapezoidal, Midpoint, Simpson 1/3,
Simpson 3/8, Monte Carlo}, in particular Midpoint.  In the source the
`new MidpointRule()` entry of `integrationMethods` is commented out, so the
Midpoint identifier is not in the registry. -/
theorem claim1_counterexample : MethodName.midpoint ∉ integrationMethods := by
  decide

/-- Claim C1 as amended: the registry contains a usable implementation for
each of Trapezoidal, Simpson 1/3, Simpson 3/8 and Monte Carlo — every
registered rule's `integrate` can be invoked (here: any `n ≥ 3` returns a
finite value for every `f`, `a`, `b`) — but the Midpoint identifier is
absent, its constructor call being commented out of the registry. -/
theorem claim1_amended :
    (∀ m ∈ integrationMethods, ∀ (f : ℚ → ℚ) (a b : ℚ) (n : ℕ) (rand : ℕ → ℚ),
      3 ≤ n → (methodIntegrate m f a b n rand).isOk = true) ∧
    MethodName.midpoint ∉ integrationMethods := by
  constructor
  · intro m hm f a b n rand hn
    have hq : ((n : ℚ)) ≠ 0 := Nat.cast_ne_zero.mpr (by omega)
    have hq1 : (((n - 1 : ℕ)) : ℚ) ≠ 0 := Nat.cast_ne_zero.mpr (by omega)
    have h3 : ¬ n < 3 := by omega
    simp only [integrationMethods, List.mem_cons, List.not_mem_nil, or_false] at hm
    rcases hm with rfl | rfl | rfl | rfl
    · simp [methodIntegrate, trapezoidalIntegrate, jsDiv, hq, ofOpt,
        IntegrateResult.isOk]
    · by_cases h2 : n % 2 = 0
      · simp [methodIntegrate, simpson13Integrate, h2, simpsonRule, jsDiv, hq,
          ofOpt, IntegrateResult.isOk]
      · simp [methodIntegrate, simpson13Integrate, h2, simpsonRule, jsDiv, hq,
          hq1, ofOpt, IntegrateResult.isOk]
    · simp [methodIntegrate, simpson38Integrate, h3, IntegrateResult.isOk]
    · simp [methodIntegrate, monteCarloIntegrate, jsDiv, hq, ofOpt,
        IntegrateResult.isOk]
  · decide

/-- Claim C2: the spec requires `integrate` to return a finite number for
every valid `(a, b, n)` with `f` finite on the sampled nodes, including
`n = 1` for the rules that accept it.  Simpson 1/3 accepts `n = 1` (no
parameter check) but its odd-`n` path then calls `simpsonRule` on the
degenerate range `[a, a]` with `0` intervals, computing `h = 0/0` — NaN in
JS, `none` here — so the returned value is not finite.  Evaluated at the
failing input `f(x) = x·x`, `a = 0`, `b = 2`, `n = 1`. -/
theorem claim2_failing_eval :
    simpson13Integrate funcX2 0 2 1 = none ∧ simpsonRule funcX2 0 0 0 = none := by
  constructor
  · norm_num [simpson13Integrate, simpsonRule, jsDiv]
  · norm_num [simpsonRule, jsDiv]

/-- Claim C3, counterexample.  The claim says the error fields are never
omitted when the exact value is known.  `performCalculations` guards them
with JS truthiness (`exactValue ? ... : null`), so a known exact value of
`0` — e.g. the predefined `x^3` entry over `[-1, 1]`, where the trapezoidal
value at `n = 2` is also `0` — yields `error: null` and
`relativeError: null` instead of `|approx − exact| = 0`. -/
theorem claim3_counterexample :
    exactX3 (-1) 1 = 0 ∧
    trapezoidalIntegrate funcX3 (-1) 1 2 = some 0 ∧
    (mkRuleResult "Trapezoidal Rule" 0 (some (exactX3 (-1) 1)) none).error = none ∧
    (mkRuleResult "Trapezoidal Rule" 0 (some (exactX3 (-1) 1)) none).error ≠
      some |0 - exactX3 (-1) 1| ∧
    (mkRuleResult "Trapezoidal Rule" 0 (some (exactX3 (-1) 1)) none).relativeError = none := by
  have he : exactX3 (-1) 1 = 0 := by norm_num [exactX3]
  have h12 : Finset.Ico (1 : ℕ) 2 = {1} := rfl
  refine ⟨he, ?_, ?_, ?_, ?_⟩
  · simp [trapezoidalIntegrate, jsDiv, funcX3, h12]
  · simp [mkRuleResult, he]
  · simp [mkRuleResult, he]
  · simp [mkRuleResult, he]

/-- Claim C3 as amended: whenever the exact value is known **and nonzero**
(JS truthiness), the result record carries absolute error `|approx − exact|`
and relative error `|approx − exact| / |exact| × 100`. -/
theorem claim3_amended (name : String) (v e : ℚ) (est : Option ℚ) (he : e ≠ 0) :
    (mkRuleResult name v (some e) est).error = some |v - e| ∧
    (mkRuleResult name v (some e) est).relativeError = some (|v - e| / |e| * 100) := by
  refine ⟨by simp [mkRuleResult, he], ?_⟩
  simp [mkRuleResult, he, abs_div]

/-- Witness for the amended claim C3 at `name = "Trapezoidal Rule"`,
`v = 1`, `e = 2`. -/
theorem claim3_amended_witness :
    (mkRuleResult "Trapezoidal Rule" 1 (some 2) none).error = some |(1 : ℚ) - 2| ∧
    (mkRuleResult "Trapezoidal Rule" 1 (some 2) none).relativeError =
      some (|(1 : ℚ) - 2| / |(2 : ℚ)| * 100) :=
  claim3_amended "Trapezoidal Rule" 1 2 none (by norm_num)

/-- Claim C5: Simpson 3/8 raises its parameter error exactly when `n < 3`,
and for every `n ≥ 3` it completes with a value. -/
theorem claim5_simpson38_param_error (f : ℚ → ℚ) (a b : ℚ) (n : ℕ) :
    ((∃ msg, simpson38Integrate f a b n = Except.error msg) ↔ n < 3) ∧
    ((∃ v, simpson38Integrate f a b n = Except.ok v) ↔ 3 ≤ n) := by
  by_cases h : n < 3
  · constructor
    · simp [simpson38Integrate, h]
    · simp [simpson38Integrate, h]
  · constructor
    · simp [simpson38Integrate, h]
    · simp [simpson38Integrate, h]
      omega

/-- Claim C7, counterexample.  The claim says that for any input containing
the shorthand `e^`, the normalized text applies the exponential function
rather than ordinary exponentiation of a constant.  But the whole-word
constant rewrite `e → Math.E` runs first and consumes a stand-alone `e`, so
the canonical input `e^x` normalizes to `Math.E**x` — exponentiation of the
constant — and contains no `Math.exp` call. -/
theorem claim7_counterexample :
    containsSub ("e^x".toList) ("e^".toList) = true ∧
    normalizeChars ("e^x".toList) = ("Math.E**x".toList) ∧
    containsSub (normalizeChars ("e^x".toList)) ("Math.exp".toList) = false := by
  refine ⟨by decide, by decide, by decide⟩

/-- Claim C7 as amended: the `e^ → Math.exp` rewrite does precede the
generic `^ → **` rewrite, but the earlier whole-word constant rewrite
`e → Math.E` pre-empts it whenever the `e` stands alone as a word, so `e^x`
normalizes to ordinary exponentiation `Math.E**x`; the exponential-call
rewrite fires only when the `e` is directly preceded by a word character,
e.g. `2e^x`, whose normalization contains `Math.exp` and no `**`. -/
theorem claim7_amended :
    normalizeChars ("e^x".toList) = ("Math.E**x".toList) ∧
    containsSub (normalizeChars ("2e^x".toList)) ("Math.exp".toList) = true ∧
    containsSub (normalizeChars ("2e^x".toList)) ("**".toList) = false := by
  refine ⟨by decide, by decide, by decide⟩

/-- Claim C9: on a Monte Carlo instance on which `integrate` has never been
called, `lastSamples` is still unset, so `getErrorEstimate` returns `null`
for every `f`, `a`, `b`, `n` (and any host square root), rather than
computing an estimate or raising. -/
theorem claim9_fresh_estimate_null (f : ℚ → ℚ) (a b : ℚ) (n : ℕ)
    (sqrt : ℚ → ℚ) :
    monteCarloGetErrorEstimate monteCarloNew f a b n sqrt = EstimateResult.null := rfl

/-- If every character of a list is whitespace, JS `trim` empties it. -/
theorem jsTrim_eq_nil (s : List Char) (h : ∀ c ∈ s, c.isWhitespace) :
    jsTrim s = [] := by
  have h1 : s.dropWhile Char.isWhitespace = [] :=
    List.dropWhile_eq_nil_iff.mpr h
  simp [jsTrim, h1]

/-- Claim C10: for every input that is empty or whitespace-only, the
compiler returns `{ processed: null, error: '' }` — no callable and an
empty error message, hence neither kind of CompileError. -/
theorem claim10_blank_input (host : HostEval) (raw : String)
    (h : ∀ c ∈ raw.toList, c.isWhitespace) :
    processCustomFunction host raw = { processed := none, error := "" } := by
  have h0 : jsTrim raw.toList = [] := jsTrim_eq_nil raw.toList h
  unfold processCustomFunction
  rw [h0]
  rfl

/-- Claim C4: for every `f`, bounds `a < b` and odd `n`, Simpson 1/3 equals
the pure composite Simpson value on the first `n−1` subintervals (up to
`b − h` with `h = (b−a)/n`) plus the single trapezoidal panel
`(h/2)·(f (b−h) + f b)` — stated on the `Option` layer, so it also
propagates non-finiteness identically. -/
theorem claim4_simpson_odd_split (f : ℚ → ℚ) (a b : ℚ) (n : ℕ)
    (hab : a < b) (hodd : n % 2 = 1) :
    simpson13Integrate f a b n =
      (simpsonRule f a (b - (b - a) / n) (n - 1)).map fun s =>
        s + (b - a) / n / 2 * (f (b - (b - a) / n) + f b) := by
  have hq : ((n : ℚ)) ≠ 0 := Nat.cast_ne_zero.mpr (by omega)
  have h2 : ¬ n % 2 = 0 := by omega
  simp [simpson13Integrate, h2, jsDiv, hq]

/-- Witness for claim C4 at `f = id`, `a = 0`, `b = 2`, `n = 3`. -/
theorem claim4_witness :
    simpson13Integrate (fun x => x) 0 2 3 =
      (simpsonRule (fun x => x) 0 (2 - (2 - 0) / ((3 : ℕ) : ℚ)) (3 - 1)).map fun s =>
        s + ((2 : ℚ) - 0) / ((3 : ℕ) : ℚ) / 2 *
          ((2 - (2 - 0) / ((3 : ℕ) : ℚ)) + 2) :=
  claim4_simpson_odd_split (fun x => x) 0 2 3 (by norm_num) rfl

/-- Claim C8: for a non-blank input whose normalized text the host compiles,
the compiler succeeds exactly when some probe in `{0.1, 1, 2, 3, 5}` returns
a finite non-NaN number; when no probe does, it returns no callable and the
non-empty domain-error message. -/
theorem claim8_probe_validation (host : HostEval) (raw : String)
    (h1 : (jsTrim raw.toList).isEmpty = false)
    (h2 : host.compile (String.mk (normalizeChars raw.toList)) = CompileOutcome.success) :
    ((processCustomFunction host raw).processed.isSome =
      (testPoints.any fun x =>
        probeValid (host.eval (String.mk (normalizeChars raw.toList)) x))) ∧
    ((testPoints.any fun x =>
        probeValid (host.eval (String.mk (normalizeChars raw.toList)) x)) = false →
      (processCustomFunction host raw).processed = none ∧
      (processCustomFunction host raw).error = domainErrorMessage ∧
      domainErrorMessage ≠ "") := by
  unfold processCustomFunction
  rw [h1]
  simp only [Bool.false_eq_true, if_false, h2]
  cases hA : (testPoints.any fun x =>
      probeValid (host.eval (String.mk (normalizeChars raw.toList)) x)) <;>
    simp_all [domainErrorMessage]

/-- Witness for claim C8: the all-valid host and the input `x`. -/
theorem claim8_witness :
    ((processCustomFunction hostAllValid "x").processed.isSome =
      (testPoints.any fun x =>
        probeValid (hostAllValid.eval (String.mk (normalizeChars "x".toList)) x))) ∧
    ((testPoints.any fun x =>
        probeValid (hostAllValid.eval (String.mk (normalizeChars "x".toList)) x)) = false →
      (processCustomFunction hostAllValid "x").processed = none ∧
      (processCustomFunction hostAllValid "x").error = domainErrorMessage ∧
      domainErrorMessage ≠ "") :=
  claim8_probe_validation hostAllValid "x" (by decide) rfl

/-- The weighted square sum behind the composite Simpson 1/3 rule: over
`i = 1, …, 2k−1` with weights 4 (odd `i`) and 2 (even `i`),
`Σ cᵢ i² = (2k)³ − (2k)²`. -/
theorem simpsonCoeffSumSq (k : ℕ) (hk : 1 ≤ k) :
    ∑ i ∈ Finset.Ico 1 (2 * k), (if i % 2 = 0 then (2 : ℚ) else 4) * (i : ℚ) ^ 2 =
      (2 * (k : ℚ)) ^ 3 - (2 * (k : ℚ)) ^ 2 := by
  induction k, hk using Nat.le_induction with
  | base =>
    rw [show 2 * 1 = 1 + 1 from rfl, Finset.sum_Ico_succ_top (le_refl 1),
      Finset.Ico_self, Finset.sum_empty]
    norm_num
  | succ k hk ih =>
    have h1 : 1 ≤ 2 * k := by omega
    have h2 : 1 ≤ 2 * k + 1 := by omega
    have e1 : (2 * k) % 2 = 0 := by omega
    have e2 : ¬ (2 * k + 1) % 2 = 0 := by omega
    rw [show 2 * (k + 1) = (2 * k + 1) + 1 by ring,
      Finset.sum_Ico_succ_top h2, Finset.sum_Ico_succ_top h1, ih,
      if_pos e1, if_neg e2]
    push_cast
    ring

/-- Claim C6: for `f(x) = x²` on `[0, 2]`, Simpson 1/3 at every even
`n ≥ 2` returns exactly `8/3` in exact arithmetic (Simpson is exact for
polynomials of degree ≤ 3). -/
theorem claim6_simpson_exact_on_x2 (n : ℕ) (h2n : 2 ≤ n) (heven : n % 2 = 0) :
    simpson13Integrate funcX2 0 2 n = some (8 / 3) := by
  obtain ⟨k, rfl⟩ : ∃ k, n = 2 * k := ⟨n / 2, by omega⟩
  have hk : 1 ≤ k := by omega
  have hq : ((2 * k : ℕ) : ℚ) ≠ 0 := Nat.cast_ne_zero.mpr (by omega)
  have hkq : ((k : ℚ)) ≠ 0 := Nat.cast_ne_zero.mpr (by omega)
  have hsum : ∑ i ∈ Finset.Ico 1 (2 * k),
      (if i % 2 = 0 then (2 : ℚ) else 4) * funcX2 (0 + (i : ℚ) * ((2 - 0) / ((2 * k : ℕ) : ℚ))) =
      ((2 - 0) / ((2 * k : ℕ) : ℚ)) ^ 2 * ((2 * (k : ℚ)) ^ 3 - (2 * (k : ℚ)) ^ 2) := by
    rw [← simpsonCoeffSumSq k hk, Finset.mul_sum]
    refine Finset.sum_congr rfl fun i _ => ?_
    simp only [funcX2]
    ring
  simp only [simpson13Integrate, heven, if_pos, simpsonRule, jsDiv, hq,
    if_neg, if_false]
  rw [Option.some_bind]
  rw [if_neg (by norm_num : ¬ ((3 : ℚ) = 0))]
  rw [hsum]
  have hcast : ((2 * k : ℕ) : ℚ) = 2 * (k : ℚ) := by push_cast; ring
  rw [hcast]
  simp only [funcX2]
  congr 1
  field_simp
  ring

/-- Witness for claim C6 at `n = 2`. -/
theorem claim6_witness : simpson13Integrate funcX2 0 2 2 = some (8 / 3) :=
  claim6_simpson_exact_on_x2 2 (le_refl 2) rfl

/-- Witness for claim C10 at the one-space input. -/
theorem claim10_witness :
    processCustomFunction hostAllValid " " = { processed := none, error := "" } :=
  claim10_blank_input hostAllValid " " (by decide)

end NumInt
